import Mathlib

/-!
Verification of the FizzSwap settlement engine against its specification.

The development shallowly embeds the relevant parts of the repository:

* `contracts/FizzDex.sol` — the constant-product pool (`addLiquidity`,
  `removeLiquidity`, `swap`, the Babylonian `sqrt`) and the HTLC atomic-swap
  state machine (`initiateAtomicSwap`, `completeAtomicSwap`,
  `refundAtomicSwap`).  Solidity `uint256` values are modelled as `Nat`
  (no quantity in scope approaches `2 ^ 256`; the contract's checked
  arithmetic reverts rather than wraps, and the checked division/subtraction
  panics are modelled explicitly as error values).  A `require` failure or an
  arithmetic panic reverts the whole call, so each operation returns
  `Except DexError σ`: an `error` result leaves every piece of state as it
  was before the call.
* `contracts/FeeOnTransferToken.sol` — the `_transfer` override that deducts
  a basis-point fee.
* `relayer/src/route-aggregator.ts` — `findBestRoute`.
* the relayer worker's encrypted mapping store (`loadMappings` /
  `saveMappings`) and the Express middleware of `relayer/src/index.ts`
  (API-key check and in-memory rate limiter).

External collaborators (ERC-20 token contracts, `keccak256`, Node's
`crypto` / `JSON` modules) are modelled as explicit parameters; everything
the repository itself computes is translated concretely.
-/

namespace FizzSwap

/-- Revert reasons of `FizzDex.sol` (its `require` messages) together with
the Solidity 0.8 arithmetic panics (division by zero, underflow), which also
revert the call. -/
inductive DexError where
  | invalidAmounts
  | identicalTokens
  | noTokensReceived
  | insufficientLiquidityMinted
  | insufficientShares
  | invalidInputAmount
  | poolNotInit
  | slippageTooHigh
  | insufficientLiquidity
  | invalidTimelock
  | invalidAmount
  | swapAlreadyExists
  | notParticipant
  | alreadyCompleted
  | alreadyRefunded
  | swapExpired
  | invalidSecret
  | notInitiator
  | timelockNotExpired
  | panicDivByZero
  | panicUnderflow
deriving DecidableEq, Repr

/-- `LiquidityPool` storage struct of `FizzDex.sol` (lines 18–25).
Addresses are modelled as `Nat`; `shares` is the per-provider share map. -/
structure LiquidityPool where
  tokenA : Nat
  tokenB : Nat
  reserveA : Nat
  reserveB : Nat
  totalShares : Nat
  shares : Nat → Nat

/-- The local `reserveIn` of `FizzDex.sol swap` (line 193):
`isTokenA ? pool.reserveA : pool.reserveB`. -/
def swapReserveIn (pool : LiquidityPool) (tokenIn : Nat) : Nat :=
  if tokenIn = pool.tokenA then pool.reserveA else pool.reserveB

/-- The local `reserveOut` of `FizzDex.sol swap` (line 194). -/
def swapReserveOut (pool : LiquidityPool) (tokenIn : Nat) : Nat :=
  if tokenIn = pool.tokenA then pool.reserveB else pool.reserveA

/-- The output amount computed by `FizzDex.sol swap` (lines 202–203):
`amountInWithFee = actualAmountIn * 997`,
`amountOut = amountInWithFee * reserveOut / (reserveIn * 1000 + amountInWithFee)`
in unsigned integer (floor) arithmetic. -/
def swapAmountOut (pool : LiquidityPool) (tokenIn actualAmountIn : Nat) : Nat :=
  actualAmountIn * 997 * swapReserveOut pool tokenIn /
    (swapReserveIn pool tokenIn * 1000 + actualAmountIn * 997)

/-- `FizzDex.sol swap` (lines 178–221).  `actualAmountIn` is the measured
before/after balance delta of the (external) input token contract; the
nominal `amountIn` is only used for the initial `require`.  The reserve
subtraction `reserveOut - amountOut` cannot underflow because the code has
already required `amountOut < reserveOut`. -/
def swap (pool : LiquidityPool) (tokenIn tokenOut amountIn minAmountOut actualAmountIn : Nat) :
    Except DexError (LiquidityPool × Nat) :=
  if amountIn = 0 then .error .invalidInputAmount
  else if tokenIn = tokenOut then .error .identicalTokens
  else if pool.reserveA = 0 ∨ pool.reserveB = 0 then .error .poolNotInit
  else if actualAmountIn = 0 then .error .noTokensReceived
  else
    let amountOut := swapAmountOut pool tokenIn actualAmountIn
    if amountOut < minAmountOut then .error .slippageTooHigh
    else if swapReserveOut pool tokenIn ≤ amountOut then .error .insufficientLiquidity
    else if tokenIn = pool.tokenA then
      .ok ({ pool with reserveA := pool.reserveA + actualAmountIn,
                       reserveB := pool.reserveB - amountOut }, amountOut)
    else
      .ok ({ pool with reserveB := pool.reserveB + actualAmountIn,
                       reserveA := pool.reserveA - amountOut }, amountOut)

/-- `FizzDex.sol removeLiquidity` (lines 150–173).  The two pro-rata
divisions by `pool.totalShares` are Solidity 0.8 checked divisions: when
`totalShares = 0` the call reverts with `Panic(0x12)`.  The subsequent
checked subtractions revert with `Panic(0x11)` on underflow (the share-map
subtraction is already guarded by the `require`). -/
def removeLiquidity (pool : LiquidityPool) (caller sharesReq : Nat) :
    Except DexError (LiquidityPool × Nat × Nat) :=
  if pool.shares caller < sharesReq then .error .insufficientShares
  else if pool.totalShares = 0 then .error .panicDivByZero
  else
    let amountA := sharesReq * pool.reserveA / pool.totalShares
    let amountB := sharesReq * pool.reserveB / pool.totalShares
    if pool.totalShares < sharesReq ∨ pool.reserveA < amountA ∨ pool.reserveB < amountB then
      .error .panicUnderflow
    else
      .ok ({ pool with
              reserveA := pool.reserveA - amountA,
              reserveB := pool.reserveB - amountB,
              totalShares := pool.totalShares - sharesReq,
              shares := fun a => if a = caller then pool.shares a - sharesReq else pool.shares a },
            amountA, amountB)

/-- The Babylonian iteration of `FizzDex.sol sqrt` (lines 380–385):
`while (x < z) { z = x; x = (y / x + x) / 2; }`, returning `z`. -/
def sqrtLoop (y x z : Nat) : Nat :=
  if h : x < z then sqrtLoop y ((y / x + x) / 2) x else z
termination_by z
decreasing_by exact h

/-- `FizzDex.sol sqrt` (lines 378–389). -/
def sqrtFizz (y : Nat) : Nat :=
  if 3 < y then sqrtLoop y (y / 2 + 1) y
  else if y ≠ 0 then 1 else 0

/-- The share amount computed by `FizzDex.sol addLiquidity` (lines 128–135)
from the measured balance deltas `added0`, `added1` of the canonically
ordered tokens. -/
def mintedShares (pool : LiquidityPool) (added0 added1 : Nat) : Nat :=
  if pool.totalShares = 0 then sqrtFizz (added0 * added1)
  else min (added0 * pool.totalShares / pool.reserveA)
           (added1 * pool.totalShares / pool.reserveB)

/-- `FizzDex.sol addLiquidity` (lines 89–145).  `added0` and `added1` are
the measured before/after balance deltas of the canonically ordered token
contracts (the transfers themselves are external calls).  The divisions in
the `totalShares ≠ 0` branch are checked: a zero reserve would revert with
`Panic(0x12)`. -/
def addLiquidity (pool : LiquidityPool) (caller tokenA tokenB amountA amountB added0 added1 : Nat) :
    Except DexError (LiquidityPool × Nat) :=
  if amountA = 0 ∨ amountB = 0 then .error .invalidAmounts
  else if tokenA = tokenB then .error .identicalTokens
  else if added0 = 0 ∨ added1 = 0 then .error .noTokensReceived
  else if pool.totalShares ≠ 0 ∧ (pool.reserveA = 0 ∨ pool.reserveB = 0) then
    .error .panicDivByZero
  else
    let shares := mintedShares pool added0 added1
    if shares = 0 then .error .insufficientLiquidityMinted
    else
      .ok ({ pool with
              reserveA := pool.reserveA + added0,
              reserveB := pool.reserveB + added1,
              totalShares := pool.totalShares + shares,
              shares := fun a => if a = caller then pool.shares a + shares else pool.shares a },
            shares)

/-- A concrete pool with reserves (1,000,000, 1,000,000) for the spec's
worked numeric example. -/
def examplePool : LiquidityPool :=
  { tokenA := 0, tokenB := 1, reserveA := 1000000, reserveB := 1000000,
    totalShares := 1000000, shares := fun _ => 0 }

/-! Arithmetic facts about the constant-product swap formula. -/

/-- On a pool with positive input and output reserves the computed output
amount is strictly below the output reserve. -/
lemma swapAmountOut_lt (a rIn rOut : Nat) (hIn : 0 < rIn) (hOut : 0 < rOut) :
    a * 997 * rOut / (rIn * 1000 + a * 997) < rOut := by
  have hd : 0 < rIn * 1000 + a * 997 := by positivity
  rw [Nat.div_lt_iff_lt_mul hd]
  nlinarith

/-- The core fee inequality: the output amount times the grown input reserve
is at most the input amount times the output reserve. -/
lemma swapAmountOut_key (a rIn rOut : Nat) (hIn : 0 < rIn) :
    a * 997 * rOut / (rIn * 1000 + a * 997) * (rIn + a) ≤ a * rOut := by
  set d : Nat := rIn * 1000 + a * 997 with hd
  set out : Nat := a * 997 * rOut / d with hout
  have hdiv : out * d ≤ a * 997 * rOut := Nat.div_mul_le_self (a * 997 * rOut) d
  have h997 : 997 * (out * (rIn + a)) ≤ 997 * (a * rOut) := by
    have h1 : 997 * (out * (rIn + a)) ≤ out * d := by
      have : 997 * (out * (rIn + a)) = out * (rIn * 997) + out * (a * 997) := by ring
      rw [this, hd]
      have : out * (rIn * 997) ≤ out * (rIn * 1000) :=
        Nat.mul_le_mul_left _ (Nat.mul_le_mul_left _ (by norm_num))
      nlinarith
    calc 997 * (out * (rIn + a)) ≤ out * d := h1
      _ ≤ a * 997 * rOut := hdiv
      _ = 997 * (a * rOut) := by ring
  exact Nat.le_of_mul_le_mul_left h997 (by norm_num)

/-- The post-swap product of reserves is at least the pre-swap product. -/
lemma swapAmountOut_product (a rIn rOut : Nat) (hIn : 0 < rIn) :
    rIn * rOut ≤ (rIn + a) * (rOut - a * 997 * rOut / (rIn * 1000 + a * 997)) := by
  set out : Nat := a * 997 * rOut / (rIn * 1000 + a * 997) with hout
  have hkey : out * (rIn + a) ≤ a * rOut := swapAmountOut_key a rIn rOut hIn
  have houtle : out ≤ rOut := by
    have h2 : a * 997 * rOut ≤ rOut * (rIn * 1000 + a * 997) := by nlinarith
    have h3 := Nat.div_le_div_right (c := rIn * 1000 + a * 997) h2
    rwa [Nat.mul_div_cancel _ (by positivity : 0 < rIn * 1000 + a * 997)] at h3
  obtain ⟨d0, hd0⟩ : ∃ d0, rOut = out + d0 := ⟨rOut - out, by omega⟩
  have hsub : rOut - out = d0 := by omega
  rw [hsub, hd0]
  have h1 : out * rIn ≤ a * d0 := by nlinarith
  nlinarith

/-- The computed output amount is below the output reserve whichever
direction the swap takes. -/
lemma swapAmountOut_lt_reserveOut (pool : LiquidityPool) (tokenIn a : Nat)
    (hA : 0 < pool.reserveA) (hB : 0 < pool.reserveB) :
    swapAmountOut pool tokenIn a < swapReserveOut pool tokenIn := by
  unfold swapAmountOut swapReserveIn swapReserveOut
  split_ifs with h
  · exact swapAmountOut_lt a pool.reserveA pool.reserveB hA hB
  · exact swapAmountOut_lt a pool.reserveB pool.reserveA hB hA

/-- The product inequality in terms of the pool's directional reserves. -/
lemma swapAmountOut_product_dir (pool : LiquidityPool) (tokenIn a : Nat)
    (hA : 0 < pool.reserveA) (hB : 0 < pool.reserveB) :
    swapReserveIn pool tokenIn * swapReserveOut pool tokenIn ≤
      (swapReserveIn pool tokenIn + a) *
        (swapReserveOut pool tokenIn - swapAmountOut pool tokenIn a) := by
  unfold swapAmountOut swapReserveIn swapReserveOut
  split_ifs with h
  · exact swapAmountOut_product a pool.reserveA pool.reserveB hA
  · exact swapAmountOut_product a pool.reserveB pool.reserveA hB

/-! Correctness of the contract's Babylonian square root: it computes the
floor square root `Nat.sqrt`. -/

lemma nat_two_mul_le_sq (s x : Nat) : 2 * (s * x) ≤ s * s + x * x := by
  rcases le_total s x with h | h
  · obtain ⟨d, rfl⟩ := Nat.exists_eq_add_of_le h
    nlinarith
  · obtain ⟨d, rfl⟩ := Nat.exists_eq_add_of_le h
    nlinarith

/-- Integer AM-GM: one Babylonian step from any positive `x` lands at or
above the floor square root. -/
lemma sqrt_le_iter (y x : Nat) (hx : 0 < x) : Nat.sqrt y ≤ (y / x + x) / 2 := by
  have h1 : Nat.sqrt y * Nat.sqrt y ≤ y := Nat.sqrt_le y
  rw [Nat.le_div_iff_mul_le (by norm_num : 0 < 2)]
  have h2 : Nat.sqrt y * 2 ≤ (Nat.sqrt y * Nat.sqrt y + x * x) / x := by
    rw [Nat.le_div_iff_mul_le hx]
    have h0 := nat_two_mul_le_sq (Nat.sqrt y) x
    nlinarith
  have h3 : (Nat.sqrt y * Nat.sqrt y + x * x) / x = Nat.sqrt y * Nat.sqrt y / x + x :=
    Nat.add_mul_div_left _ _ hx
  have h4 : Nat.sqrt y * Nat.sqrt y / x ≤ y / x := Nat.div_le_div_right h1
  calc Nat.sqrt y * 2 ≤ (Nat.sqrt y * Nat.sqrt y + x * x) / x := h2
    _ = Nat.sqrt y * Nat.sqrt y / x + x := h3
    _ ≤ y / x + x := Nat.add_le_add_right h4 x

/-- The loop's initial iterate `y / 2 + 1` is at or above the floor square
root. -/
lemma sqrt_le_start (y : Nat) : Nat.sqrt y ≤ y / 2 + 1 := by
  rcases Nat.lt_or_ge (Nat.sqrt y) 2 with h | h
  · omega
  · have h1 : Nat.sqrt y * 2 ≤ Nat.sqrt y * Nat.sqrt y :=
      Nat.mul_le_mul_left _ h
    have h2 : Nat.sqrt y * Nat.sqrt y ≤ y := Nat.sqrt_le y
    have h3 : Nat.sqrt y ≤ y / 2 := by
      rw [Nat.le_div_iff_mul_le (by norm_num : 0 < 2)]
      omega
    omega

/-- Loop invariant argument: once the iterate is at or above `Nat.sqrt y`
and the stored `z` can only stop the loop at a value whose square is at
most `y`, the loop returns exactly `Nat.sqrt y`. -/
lemma sqrtLoop_eq_sqrt (y : Nat) (hy : 2 ≤ Nat.sqrt y) :
    ∀ z x, 0 < x → Nat.sqrt y ≤ x → Nat.sqrt y ≤ z → (z ≤ x → z * z ≤ y) →
      sqrtLoop y x z = Nat.sqrt y := by
  intro z
  induction z using Nat.strong_induction_on with
  | _ z ih =>
    intro x hx hsx hsz hzx
    rw [sqrtLoop]
    split
    · next hlt =>
      have hiter := sqrt_le_iter y x hx
      exact ih x hlt ((y / x + x) / 2) (by omega) hiter hsx (fun hxle => by
        rw [Nat.le_div_iff_mul_le (by norm_num : 0 < 2)] at hxle
        have h5 : x ≤ y / x := by omega
        rw [Nat.le_div_iff_mul_le hx] at h5
        exact h5)
    · next hge =>
      have hsq : z * z ≤ y := hzx (by omega)
      have hle : z ≤ Nat.sqrt y := Nat.le_sqrt.mpr hsq
      omega

/-- The contract's `sqrt` agrees with the floor square root everywhere. -/
theorem sqrtFizz_eq_sqrt (y : Nat) : sqrtFizz y = Nat.sqrt y := by
  unfold sqrtFizz
  split
  · next h3 =>
    have hs2 : 2 ≤ Nat.sqrt y := Nat.le_sqrt.mpr (by omega)
    exact sqrtLoop_eq_sqrt y hs2 y (y / 2 + 1) (by omega) (sqrt_le_start y)
      (Nat.sqrt_le_self y) (fun hyx => by omega)
  · next h3 =>
    have hy : y = 0 ∨ y = 1 ∨ y = 2 ∨ y = 3 := by omega
    rcases hy with rfl | rfl | rfl | rfl
    · simp
    · simp
    · rw [if_pos (by norm_num)]
      exact Nat.eq_sqrt.mpr (by norm_num)
    · rw [if_pos (by norm_num)]
      exact Nat.eq_sqrt.mpr (by norm_num)

/-! Claim C1 -/

/-- C1 counterexample: with reserves (1,000,000, 1,000,000) and an actual
input of 1,000 the spec's worked example claims an output of exactly 994,
but the code's formula yields
`floor(1000·997·1000000 / (1000000·1000 + 1000·997)) = 996`. -/
theorem swap_worked_example_not_994 :
    Except.map (fun r => r.2) (swap examplePool 0 1 1000 0 1000) =
      Except.ok 996 ∧ (996 : Nat) ≠ 994 := by
  exact ⟨rfl, by decide⟩

/-- C1 (amended): on an initialized pool (positive reserves), with a
positive nominal input, distinct tokens and a positive actual received
amount, a successful `swap` returns exactly
`floor(actualReceived·997·reserveOut / (reserveIn·1000 + actualReceived·997))`;
the call fails with the slippage error when that amount is below
`minAmountOut` and with the insufficient-liquidity error when it is at
least `reserveOut`; with reserves (1,000,000, 1,000,000) and actual input
1,000 the output is exactly 996 (not 994 as the worked example states). -/
theorem swap_formula_and_errors (pool : LiquidityPool)
    (tokenIn tokenOut amountIn minAmountOut actualAmountIn : Nat)
    (hIn : 0 < amountIn) (hTok : tokenIn ≠ tokenOut)
    (hA : 0 < pool.reserveA) (hB : 0 < pool.reserveB) (hAct : 0 < actualAmountIn) :
    (∀ p out, swap pool tokenIn tokenOut amountIn minAmountOut actualAmountIn = .ok (p, out) →
      out = actualAmountIn * 997 * swapReserveOut pool tokenIn /
        (swapReserveIn pool tokenIn * 1000 + actualAmountIn * 997)) ∧
    (swapAmountOut pool tokenIn actualAmountIn < minAmountOut →
      swap pool tokenIn tokenOut amountIn minAmountOut actualAmountIn =
        .error .slippageTooHigh) ∧
    (swapReserveOut pool tokenIn ≤ swapAmountOut pool tokenIn actualAmountIn →
      swap pool tokenIn tokenOut amountIn minAmountOut actualAmountIn =
        .error .insufficientLiquidity) ∧
    Except.map (fun r => r.2) (swap examplePool 0 1 1000 0 1000) = Except.ok 996 := by
  refine ⟨?_, ?_, ?_, rfl⟩
  · intro p out h
    simp only [swap] at h
    split_ifs at h <;> simp_all [swapAmountOut]
  · intro hlt
    simp only [swap]
    split_ifs <;> first | rfl | omega | tauto
  · intro hge
    have hk := swapAmountOut_lt_reserveOut pool tokenIn actualAmountIn hA hB
    simp only [swap]
    split_ifs <;> first | rfl | omega | tauto

/-- C1 witness: the amended theorem applied to the worked example's pool
and inputs. -/
theorem swap_formula_and_errors_witness :
    (∀ p out, swap examplePool 0 1 1000 0 1000 = .ok (p, out) →
      out = 1000 * 997 * swapReserveOut examplePool 0 /
        (swapReserveIn examplePool 0 * 1000 + 1000 * 997)) ∧
    (swapAmountOut examplePool 0 1000 < 0 →
      swap examplePool 0 1 1000 0 1000 = .error .slippageTooHigh) ∧
    (swapReserveOut examplePool 0 ≤ swapAmountOut examplePool 0 1000 →
      swap examplePool 0 1 1000 0 1000 = .error .insufficientLiquidity) ∧
    Except.map (fun r => r.2) (swap examplePool 0 1 1000 0 1000) = Except.ok 996 :=
  swap_formula_and_errors examplePool 0 1 1000 0 1000 (by decide) (by decide)
    (by decide) (by decide) (by decide)

/-! Claim C2 -/

/-- C2: every successful `swap` satisfies `amountOut < reserveOut`, the
product inequality
`(reserveIn + actualReceived) · (reserveOut − amountOut) ≥ reserveIn · reserveOut`,
and consequently the post-swap product of the pool's stored reserves is at
least the pre-swap product. -/
theorem swap_product_invariant (pool : LiquidityPool)
    (tokenIn tokenOut amountIn minAmountOut actualAmountIn : Nat)
    (p : LiquidityPool) (out : Nat)
    (h : swap pool tokenIn tokenOut amountIn minAmountOut actualAmountIn = .ok (p, out)) :
    out < swapReserveOut pool tokenIn ∧
    swapReserveIn pool tokenIn * swapReserveOut pool tokenIn ≤
      (swapReserveIn pool tokenIn + actualAmountIn) * (swapReserveOut pool tokenIn - out) ∧
    pool.reserveA * pool.reserveB ≤ p.reserveA * p.reserveB := by
  simp only [swap] at h
  split_ifs at h with h1 h2 h3 h4 h5 h6 h7
  · -- tokenIn = pool.tokenA
    have hA : 0 < pool.reserveA := by omega
    have hB : 0 < pool.reserveB := by omega
    simp only [Except.ok.injEq, Prod.mk.injEq] at h
    obtain ⟨hp, hout⟩ := h
    have hlt := swapAmountOut_lt_reserveOut pool tokenIn actualAmountIn hA hB
    have hprod := swapAmountOut_product_dir pool tokenIn actualAmountIn hA hB
    refine ⟨hout ▸ hlt, hout ▸ hprod, ?_⟩
    rw [← hp]
    show pool.reserveA * pool.reserveB ≤
      (pool.reserveA + actualAmountIn) *
        (pool.reserveB - swapAmountOut pool tokenIn actualAmountIn)
    simp only [swapReserveIn, swapReserveOut, if_pos h7] at hprod
    exact hprod
  · -- tokenIn ≠ pool.tokenA
    have hA : 0 < pool.reserveA := by omega
    have hB : 0 < pool.reserveB := by omega
    simp only [Except.ok.injEq, Prod.mk.injEq] at h
    obtain ⟨hp, hout⟩ := h
    have hlt := swapAmountOut_lt_reserveOut pool tokenIn actualAmountIn hA hB
    have hprod := swapAmountOut_product_dir pool tokenIn actualAmountIn hA hB
    refine ⟨hout ▸ hlt, hout ▸ hprod, ?_⟩
    rw [← hp]
    show pool.reserveA * pool.reserveB ≤
      (pool.reserveA - swapAmountOut pool tokenIn actualAmountIn) *
        (pool.reserveB + actualAmountIn)
    simp only [swapReserveIn, swapReserveOut, if_neg h7] at hprod
    calc pool.reserveA * pool.reserveB
        = pool.reserveB * pool.reserveA := by ring
      _ ≤ (pool.reserveB + actualAmountIn) *
            (pool.reserveA - swapAmountOut pool tokenIn actualAmountIn) := hprod
      _ = (pool.reserveA - swapAmountOut pool tokenIn actualAmountIn) *
            (pool.reserveB + actualAmountIn) := by ring

/-- C2 witness: the product invariant evaluated on the worked example's
swap. -/
theorem swap_product_invariant_witness :
    (996 : Nat) < swapReserveOut examplePool 0 ∧
    swapReserveIn examplePool 0 * swapReserveOut examplePool 0 ≤
      (swapReserveIn examplePool 0 + 1000) * (swapReserveOut examplePool 0 - 996) ∧
    examplePool.reserveA * examplePool.reserveB ≤
      ({ examplePool with reserveA := 1001000, reserveB := 999004 } :
        LiquidityPool).reserveA *
      ({ examplePool with reserveA := 1001000, reserveB := 999004 } :
        LiquidityPool).reserveB :=
  swap_product_invariant examplePool 0 1 1000 0 1000
    { examplePool with reserveA := 1001000, reserveB := 999004 } 996 rfl

/-! Claim C4 -/

/-- C4: a successful `addLiquidity` mints `floor(sqrt(received0 · received1))`
shares on a pool with zero `totalShares` and
`min(received0·totalShares/reserveA, received1·totalShares/reserveB)` shares
otherwise (the contract's Babylonian `sqrt` being exactly the floor square
root), and when the computed share amount is zero the call fails with the
insufficient-liquidity-minted error (given that the earlier validation
checks pass). -/
theorem addLiquidity_shares_spec (pool : LiquidityPool)
    (caller tokenA tokenB amountA amountB added0 added1 : Nat) :
    (∀ p s, addLiquidity pool caller tokenA tokenB amountA amountB added0 added1 = .ok (p, s) →
      (pool.totalShares = 0 → s = Nat.sqrt (added0 * added1)) ∧
      (pool.totalShares ≠ 0 →
        s = min (added0 * pool.totalShares / pool.reserveA)
                (added1 * pool.totalShares / pool.reserveB))) ∧
    (0 < amountA → 0 < amountB → tokenA ≠ tokenB → 0 < added0 → 0 < added1 →
      ¬(pool.totalShares ≠ 0 ∧ (pool.reserveA = 0 ∨ pool.reserveB = 0)) →
      mintedShares pool added0 added1 = 0 →
      addLiquidity pool caller tokenA tokenB amountA amountB added0 added1 =
        .error .insufficientLiquidityMinted) := by
  constructor
  · intro p s h
    simp only [addLiquidity] at h
    split_ifs at h with h1 h2 h3 h4 h5
    simp only [Except.ok.injEq, Prod.mk.injEq] at h
    obtain ⟨hp, hs⟩ := h
    constructor
    · intro h0
      rw [← hs]
      simp only [mintedShares, if_pos h0]
      exact sqrtFizz_eq_sqrt (added0 * added1)
    · intro h0
      rw [← hs]
      simp only [mintedShares, if_neg h0]
  · intro ha hb htok h0 h1 hdiv hzero
    simp only [addLiquidity]
    split_ifs <;> first | rfl | omega | tauto

/-- C4 witness: a later deposit into the worked-example pool mints the
pro-rata minimum. -/
theorem addLiquidity_shares_spec_witness :
    (∀ p s, addLiquidity examplePool 9 0 1 1000 1000 1000 1000 = .ok (p, s) →
      (examplePool.totalShares = 0 → s = Nat.sqrt (1000 * 1000)) ∧
      (examplePool.totalShares ≠ 0 →
        s = min (1000 * examplePool.totalShares / examplePool.reserveA)
                (1000 * examplePool.totalShares / examplePool.reserveB))) ∧
    (0 < 1000 → 0 < 1000 → (0 : Nat) ≠ 1 → 0 < 1000 → 0 < 1000 →
      ¬(examplePool.totalShares ≠ 0 ∧
        (examplePool.reserveA = 0 ∨ examplePool.reserveB = 0)) →
      mintedShares examplePool 1000 1000 = 0 →
      addLiquidity examplePool 9 0 1 1000 1000 1000 1000 =
        .error .insufficientLiquidityMinted) :=
  addLiquidity_shares_spec examplePool 9 0 1 1000 1000 1000 1000

/-! Claim C10 -/

/-- C10: `removeLiquidity` never checks that the pool exists or that
`totalShares` is positive: on a pool with `totalShares = 0` (never
initialized) and a request of `0` shares, the `require(shares[caller] >=
shares)` check passes (`0 ≥ 0`) and the call then aborts with the
division-by-zero arithmetic panic from `shares * reserve / totalShares`,
not with the insufficient-shares validation error. -/
theorem removeLiquidity_empty_pool_panics (pool : LiquidityPool) (caller : Nat)
    (h0 : pool.totalShares = 0) (hsh : pool.shares caller = 0) :
    removeLiquidity pool caller 0 = .error .panicDivByZero ∧
    DexError.panicDivByZero ≠ DexError.insufficientShares := by
  constructor
  · simp only [removeLiquidity]
    rw [if_neg (by omega), if_pos h0]
  · decide

/-- A pool record that never received liquidity. -/
def zeroPool : LiquidityPool :=
  { tokenA := 0, tokenB := 1, reserveA := 0, reserveB := 0,
    totalShares := 0, shares := fun _ => 0 }

/-- C10 witness: the never-initialized pool with a zero-share request. -/
theorem removeLiquidity_empty_pool_panics_witness :
    removeLiquidity zeroPool 5 0 = .error .panicDivByZero ∧
    DexError.panicDivByZero ≠ DexError.insufficientShares :=
  removeLiquidity_empty_pool_panics zeroPool 5 rfl rfl

/-! The HTLC atomic-swap state machine of `FizzDex.sol`. -/

/-- `AtomicSwap` storage struct of `FizzDex.sol` (lines 38–47).  The
`Created` state of the spec is `completed = false ∧ refunded = false`;
addresses, hashes and the secret bytes are modelled as `Nat`. -/
structure AtomicSwap where
  initiator : Nat
  participant : Nat
  token : Nat
  amount : Nat
  secretHash : Nat
  timelock : Nat
  completed : Bool
  refunded : Bool
deriving DecidableEq, Repr

/-- Solidity's zero-initialized `AtomicSwap` struct, returned by the
`atomicSwaps` mapping for an id that was never written.  A record is
"present" exactly when its `initiator` differs from `address(0)` — the
test `initiateAtomicSwap` itself performs — and every stored record has a
nonzero initiator because `msg.sender` is never the zero address. -/
def zeroSwap : AtomicSwap :=
  { initiator := 0, participant := 0, token := 0, amount := 0,
    secretHash := 0, timelock := 0, completed := false, refunded := false }

/-- `FizzDex.sol initiateAtomicSwap` (lines 302–339).  `hashId` models
`keccak256(abi.encodePacked(initiator, participant, token, actualReceived,
secretHash, timelock))`; `actualReceived` is the measured before/after
balance delta of the external token transfer; `now` is `block.timestamp`. -/
def initiateAtomicSwap (hashId : Nat → Nat → Nat → Nat → Nat → Nat → Nat)
    (swaps : Nat → AtomicSwap)
    (sender participant token amount secretHash timelock now actualReceived : Nat) :
    Except DexError ((Nat → AtomicSwap) × Nat) :=
  if timelock ≤ now then .error .invalidTimelock
  else if amount = 0 then .error .invalidAmount
  else if actualReceived = 0 then .error .noTokensReceived
  else
    let swapId := hashId sender participant token actualReceived secretHash timelock
    if (swaps swapId).initiator ≠ 0 then .error .swapAlreadyExists
    else
      .ok (fun i => if i = swapId then
            { initiator := sender, participant := participant, token := token,
              amount := actualReceived, secretHash := secretHash,
              timelock := timelock, completed := false, refunded := false }
          else swaps i, swapId)

/-- `FizzDex.sol completeAtomicSwap` (lines 344–357).  `keccak` models
`keccak256` on the secret bytes.  A revert (an `error` result) leaves the
store untouched; on success the contract marks `completed` before the
external token transfer to the participant. -/
def completeAtomicSwap (keccak : Nat → Nat) (swaps : Nat → AtomicSwap)
    (sender swapId secret now : Nat) : Except DexError (Nat → AtomicSwap) :=
  let sw := swaps swapId
  if sw.participant ≠ sender then .error .notParticipant
  else if sw.completed then .error .alreadyCompleted
  else if sw.refunded then .error .alreadyRefunded
  else if sw.timelock < now then .error .swapExpired
  else if keccak secret ≠ sw.secretHash then .error .invalidSecret
  else .ok (fun i => if i = swapId then { sw with completed := true } else swaps i)

/-- `FizzDex.sol refundAtomicSwap` (lines 362–374). -/
def refundAtomicSwap (swaps : Nat → AtomicSwap) (sender swapId now : Nat) :
    Except DexError (Nat → AtomicSwap) :=
  let sw := swaps swapId
  if sw.initiator ≠ sender then .error .notInitiator
  else if sw.completed then .error .alreadyCompleted
  else if sw.refunded then .error .alreadyRefunded
  else if now ≤ sw.timelock then .error .timelockNotExpired
  else .ok (fun i => if i = swapId then { sw with refunded := true } else swaps i)

/-! Claim C3 -/

/-- C3: a `complete` succeeds only when called by the recorded participant
with the matching secret hash at `now ≤ timelock` on a record in the
`Created` state, and then moves exactly that record to `Completed`; a
`refund` succeeds only for the recorded initiator strictly after the
timelock on a `Created` record and moves it to `Refunded`; once a record is
`Completed` or `Refunded`, every further `complete` or `refund` on the same
id fails (and a failing call reverts, leaving all state unchanged). -/
theorem atomicSwap_state_machine (keccak : Nat → Nat) (swaps : Nat → AtomicSwap)
    (swapId : Nat) :
    (∀ sender secret now swaps',
      completeAtomicSwap keccak swaps sender swapId secret now = .ok swaps' →
      sender = (swaps swapId).participant ∧
      keccak secret = (swaps swapId).secretHash ∧
      now ≤ (swaps swapId).timelock ∧
      (swaps swapId).completed = false ∧ (swaps swapId).refunded = false ∧
      swaps' swapId = { swaps swapId with completed := true } ∧
      (∀ i, i ≠ swapId → swaps' i = swaps i)) ∧
    (∀ sender now swaps',
      refundAtomicSwap swaps sender swapId now = .ok swaps' →
      sender = (swaps swapId).initiator ∧
      (swaps swapId).timelock < now ∧
      (swaps swapId).completed = false ∧ (swaps swapId).refunded = false ∧
      swaps' swapId = { swaps swapId with refunded := true } ∧
      (∀ i, i ≠ swapId → swaps' i = swaps i)) ∧
    ((swaps swapId).completed = true ∨ (swaps swapId).refunded = true →
      (∀ sender secret now,
        ∃ e, completeAtomicSwap keccak swaps sender swapId secret now = .error e) ∧
      (∀ sender now,
        ∃ e, refundAtomicSwap swaps sender swapId now = .error e)) := by
  refine ⟨?_, ?_, ?_⟩
  · intro sender secret now swaps' h
    simp only [completeAtomicSwap] at h
    split_ifs at h with h1 h2 h3 h4 h5
    simp only [Except.ok.injEq] at h
    push_neg at h1 h5
    refine ⟨h1.symm, h5, by omega, by simpa using h2, by simpa using h3, ?_, ?_⟩
    · rw [← h]
      simp
    · intro i hi
      rw [← h]
      simp [hi]
  · intro sender now swaps' h
    simp only [refundAtomicSwap] at h
    split_ifs at h with h1 h2 h3 h4
    simp only [Except.ok.injEq] at h
    push_neg at h1
    refine ⟨h1.symm, by omega, by simpa using h2, by simpa using h3, ?_, ?_⟩
    · rw [← h]
      simp
    · intro i hi
      rw [← h]
      simp [hi]
  · intro hterm
    constructor
    · intro sender secret now
      simp only [completeAtomicSwap]
      split_ifs with h1 h2 h3 h4 h5
      · exact ⟨_, rfl⟩
      · exact ⟨_, rfl⟩
      · exact ⟨_, rfl⟩
      · exact ⟨_, rfl⟩
      · exact ⟨_, rfl⟩
      · rcases hterm with hc | hr
        · exact absurd hc h2
        · exact absurd hr h3
    · intro sender now
      simp only [refundAtomicSwap]
      split_ifs with h1 h2 h3 h4
      · exact ⟨_, rfl⟩
      · exact ⟨_, rfl⟩
      · exact ⟨_, rfl⟩
      · exact ⟨_, rfl⟩
      · rcases hterm with hc | hr
        · exact absurd hc h2
        · exact absurd hr h3

/-- A concrete one-record store for exercising the state machine:
initiator 7 locked 100 of token 2 for participant 5 under secret hash 42
(with the identity as the modelled hash) and timelock 50. -/
def testSwaps : Nat → AtomicSwap := fun i =>
  if i = 10 then
    { initiator := 7, participant := 5, token := 2, amount := 100,
      secretHash := 42, timelock := 50, completed := false, refunded := false }
  else zeroSwap

/-- The store after participant 5 completes swap 10 with the correct
secret. -/
def testSwapsAfter : Nat → AtomicSwap := fun i =>
  if i = 10 then { testSwaps 10 with completed := true } else testSwaps i

/-- C3 witness: a concrete successful completion, its recorded state
change, and the failure of any further complete or refund on the same id. -/
theorem atomicSwap_state_machine_witness :
    (5 : Nat) = (testSwaps 10).participant ∧
    testSwapsAfter 10 = { testSwaps 10 with completed := true } ∧
    (∃ e, completeAtomicSwap (fun s => s) testSwapsAfter 5 10 42 30 = .error e) ∧
    (∃ e, refundAtomicSwap testSwapsAfter 7 10 100 = .error e) := by
  have h1 := (atomicSwap_state_machine (fun s => s) testSwaps 10).1 5 42 30
    testSwapsAfter rfl
  have h2 := (atomicSwap_state_machine (fun s => s) testSwapsAfter 10).2.2
    (Or.inl rfl)
  exact ⟨h1.1, h1.2.2.2.2.2.1, h2.1 5 42 30, h2.2 7 100⟩

/-! Claim C6 -/

/-- C6: a successful `initiateAtomicSwap` returns the deterministic hash of
(initiator, participant, token, actual received amount, secretHash,
timelock) — computed from the measured balance delta, not the nominal
`amount` — and stores under that id a `Created` record whose `amount` is
the actual received amount; success requires the timelock to be strictly
in the future, a positive nominal amount and a positive received amount;
and when a record with the same id is already present (nonzero initiator,
the contract's own existence test) the call fails with the
swap-already-exists error. -/
theorem initiateAtomicSwap_spec
    (hashId : Nat → Nat → Nat → Nat → Nat → Nat → Nat)
    (swaps : Nat → AtomicSwap)
    (sender participant token amount secretHash timelock now actualReceived : Nat) :
    (∀ swaps' swapId,
      initiateAtomicSwap hashId swaps sender participant token amount secretHash
          timelock now actualReceived = .ok (swaps', swapId) →
      swapId = hashId sender participant token actualReceived secretHash timelock ∧
      swaps' swapId =
        { initiator := sender, participant := participant, token := token,
          amount := actualReceived, secretHash := secretHash,
          timelock := timelock, completed := false, refunded := false } ∧
      (∀ i, i ≠ swapId → swaps' i = swaps i) ∧
      now < timelock ∧ 0 < amount ∧ 0 < actualReceived) ∧
    (now < timelock → 0 < amount → 0 < actualReceived →
      (swaps (hashId sender participant token actualReceived secretHash timelock)).initiator ≠ 0 →
      initiateAtomicSwap hashId swaps sender participant token amount secretHash
          timelock now actualReceived = .error .swapAlreadyExists) := by
  constructor
  · intro swaps' swapId h
    simp only [initiateAtomicSwap] at h
    split_ifs at h with h1 h2 h3 h4
    simp only [Except.ok.injEq, Prod.mk.injEq] at h
    obtain ⟨hst, hid⟩ := h
    subst hid
    refine ⟨rfl, ?_, ?_, by omega, by omega, by omega⟩
    · rw [← hst]
      simp
    · intro i hi
      rw [← hst]
      simp [hi]
  · intro ht ha hr hex
    simp only [initiateAtomicSwap]
    split_ifs <;> first | rfl | omega | tauto

/-- A concrete injective-enough packing standing in for `keccak256` over the
six-tuple. -/
def hashT : Nat → Nat → Nat → Nat → Nat → Nat → Nat :=
  fun a b c d e f => ((((a * 1000 + b) * 1000 + c) * 1000 + d) * 1000 + e) * 1000 + f

/-- The empty atomic-swap store. -/
def emptySwaps : Nat → AtomicSwap := fun _ => zeroSwap

/-- The store produced by the witness initiation below. -/
def swapsInit : Nat → AtomicSwap := fun i =>
  if i = hashT 7 5 2 90 42 50 then
    { initiator := 7, participant := 5, token := 2, amount := 90,
      secretHash := 42, timelock := 50, completed := false, refunded := false }
  else zeroSwap

/-- C6 witness: initiating with nominal amount 100 but actual received 90
stores amount 90 under the id hashed from 90, and re-initiating the same
parameters fails with the swap-already-exists error. -/
theorem initiateAtomicSwap_spec_witness :
    swapsInit (hashT 7 5 2 90 42 50) =
      { initiator := 7, participant := 5, token := 2, amount := 90,
        secretHash := 42, timelock := 50, completed := false, refunded := false } ∧
    initiateAtomicSwap hashT swapsInit 7 5 2 100 42 50 30 90 =
      .error .swapAlreadyExists := by
  have h1 := (initiateAtomicSwap_spec hashT emptySwaps 7 5 2 100 42 50 30 90).1
    swapsInit (hashT 7 5 2 90 42 50) rfl
  have h2 := (initiateAtomicSwap_spec hashT swapsInit 7 5 2 100 42 50 30 90).2
    (by decide) (by decide) (by decide) (by decide)
  exact ⟨h1.2.1, h2⟩

/-! The fee-on-transfer token (`contracts/FeeOnTransferToken.sol`). -/

/-- Revert reason of OpenZeppelin's `ERC20._transfer` on insufficient
balance. -/
inductive TokenError where
  | insufficientBalance
deriving DecidableEq, Repr

/-- Balance state of the fee-on-transfer token.  `feeBasisPoints = 100`
means a 1% fee; the constructor requires `feeBasisPoints ≤ 1000`. -/
structure FeeToken where
  feeBasisPoints : Nat
  feeReceiver : Nat
  balances : Nat → Nat

/-- OpenZeppelin `ERC20._transfer` semantics: deduct `amount` from `src`,
credit it to `dst`, reverting when `src`'s balance is insufficient. -/
def erc20Transfer (t : FeeToken) (src dst amount : Nat) : Except TokenError FeeToken :=
  if t.balances src < amount then .error .insufficientBalance
  else
    let b1 := fun a => if a = src then t.balances a - amount else t.balances a
    .ok { t with balances := fun a => if a = dst then b1 a + amount else b1 a }

/-- `FeeOnTransferToken._transfer` (part_000 lines 19–35): plain transfer
for mint/burn-style and fee-receiver-involving calls, otherwise a net
transfer of `amount - fee` with `fee = amount * feeBasisPoints / 10000`
sent to the fee receiver. -/
def feeTransfer (t : FeeToken) (src dst amount : Nat) : Except TokenError FeeToken :=
  if src = 0 ∨ dst = 0 ∨ t.feeBasisPoints = 0 ∨ src = t.feeReceiver ∨ dst = t.feeReceiver then
    erc20Transfer t src dst amount
  else
    let fee := amount * t.feeBasisPoints / 10000
    let sendAmount := amount - fee
    match erc20Transfer t src dst sendAmount with
    | .error e => .error e
    | .ok t1 => if 0 < fee then erc20Transfer t1 src t.feeReceiver fee else .ok t1

/-- A funded `erc20Transfer` succeeds and produces the pointwise-updated
balance map. -/
lemma erc20Transfer_ok (t : FeeToken) (src dst amount : Nat)
    (h : amount ≤ t.balances src) :
    erc20Transfer t src dst amount = .ok
      { t with balances := fun a =>
          if a = dst then
            (if a = src then t.balances a - amount else t.balances a) + amount
          else if a = src then t.balances a - amount else t.balances a } := by
  unfold erc20Transfer
  rw [if_neg (by omega)]

/-- The recipient's balance delta under `feeTransfer` is exactly
`amount - amount * feeBasisPoints / 10000` whenever the parties are
distinct, nonzero, distinct from the fee receiver, and the sender is
funded. -/
lemma feeTransfer_delta (t : FeeToken) (src dst amount : Nat)
    (hsrc : src ≠ 0) (hdst : dst ≠ 0) (hbps0 : t.feeBasisPoints ≠ 0)
    (hbps : t.feeBasisPoints ≤ 10000)
    (hsfr : src ≠ t.feeReceiver) (hdfr : dst ≠ t.feeReceiver) (hsd : src ≠ dst)
    (hbal : amount ≤ t.balances src) :
    ∃ t1, feeTransfer t src dst amount = .ok t1 ∧
      t1.balances dst = t.balances dst + (amount - amount * t.feeBasisPoints / 10000) := by
  have hds : dst ≠ src := Ne.symm hsd
  have hfee : amount * t.feeBasisPoints / 10000 ≤ amount := by
    calc amount * t.feeBasisPoints / 10000 ≤ amount * 10000 / 10000 :=
          Nat.div_le_div_right (Nat.mul_le_mul_left _ hbps)
      _ = amount := Nat.mul_div_cancel _ (by norm_num)
  have e1 := erc20Transfer_ok t src dst (amount - amount * t.feeBasisPoints / 10000)
    (by omega)
  unfold feeTransfer
  rw [if_neg (by tauto)]
  dsimp only
  rw [e1]
  dsimp only
  split_ifs with hf
  · rw [erc20Transfer_ok _ src t.feeReceiver (amount * t.feeBasisPoints / 10000)
      (by simp [hsd]; omega)]
    refine ⟨_, rfl, ?_⟩
    simp [hdfr, hds]
  · refine ⟨_, rfl, ?_⟩
    simp [hds]

/-! Claim C5 -/

/-- C5: with a token deducting 1% per transfer (100 basis points), a
nominal deposit of 1,000 units delivers a measured balance delta of
exactly 990, and `addLiquidity` then increases the recorded reserves by
exactly those deltas (990), never by the nominal amounts; a subsequent
nominal-100 transfer delivers 99, and a successful `swap` with nominal
input 100 and measured delta 99 computes its output from 99 and grows the
input reserve by 99. -/
theorem feeOnTransfer_accounting (t : FeeToken) (user poolAddr : Nat)
    (hbps : t.feeBasisPoints = 100)
    (huser : user ≠ 0) (hpool : poolAddr ≠ 0)
    (hufr : user ≠ t.feeReceiver) (hpfr : poolAddr ≠ t.feeReceiver)
    (hup : user ≠ poolAddr) (hbal : 1000 ≤ t.balances user) :
    (∃ t1, feeTransfer t user poolAddr 1000 = .ok t1 ∧
      t1.balances poolAddr = t.balances poolAddr + 990) ∧
    (∃ t1, feeTransfer t user poolAddr 100 = .ok t1 ∧
      t1.balances poolAddr = t.balances poolAddr + 99) ∧
    (∀ pool caller tokenA tokenB amountA amountB added0 added1 p s,
      addLiquidity pool caller tokenA tokenB amountA amountB added0 added1 = .ok (p, s) →
      p.reserveA = pool.reserveA + added0 ∧ p.reserveB = pool.reserveB + added1) ∧
    (∀ pool tokenIn tokenOut minAmountOut p out,
      swap pool tokenIn tokenOut 100 minAmountOut 99 = .ok (p, out) →
      out = swapAmountOut pool tokenIn 99 ∧
      swapReserveIn p tokenIn = swapReserveIn pool tokenIn + 99) := by
  refine ⟨?_, ?_, ?_, ?_⟩
  · obtain ⟨t1, h1, h2⟩ := feeTransfer_delta t user poolAddr 1000 huser hpool
      (by omega) (by omega) hufr hpfr hup hbal
    exact ⟨t1, h1, by rw [h2, hbps]⟩
  · obtain ⟨t1, h1, h2⟩ := feeTransfer_delta t user poolAddr 100 huser hpool
      (by omega) (by omega) hufr hpfr hup (by omega)
    exact ⟨t1, h1, by rw [h2, hbps]⟩
  · intro pool caller tokenA tokenB amountA amountB added0 added1 p s h
    simp only [addLiquidity] at h
    split_ifs at h
    simp only [Except.ok.injEq, Prod.mk.injEq] at h
    obtain ⟨hp, hs⟩ := h
    rw [← hp]
    exact ⟨rfl, rfl⟩
  · intro pool tokenIn tokenOut minAmountOut p out h
    simp only [swap] at h
    split_ifs at h <;>
      · simp only [Except.ok.injEq, Prod.mk.injEq] at h
        obtain ⟨hp, hout⟩ := h
        refine ⟨hout.symm, ?_⟩
        rw [← hp]
        simp_all [swapReserveIn]

/-- A concrete 1%-fee token funding user 1 with 100,000 units; the fee
receiver is address 2. -/
def feeTok : FeeToken :=
  { feeBasisPoints := 100, feeReceiver := 2,
    balances := fun a => if a = 1 then 100000 else 0 }

/-- C5 witness: the accounting facts evaluated on the concrete 1%-fee
token, user 1 and pool address 3. -/
theorem feeOnTransfer_accounting_witness :
    (∃ t1, feeTransfer feeTok 1 3 1000 = .ok t1 ∧
      t1.balances 3 = feeTok.balances 3 + 990) ∧
    (∃ t1, feeTransfer feeTok 1 3 100 = .ok t1 ∧
      t1.balances 3 = feeTok.balances 3 + 99) ∧
    (∀ pool caller tokenA tokenB amountA amountB added0 added1 p s,
      addLiquidity pool caller tokenA tokenB amountA amountB added0 added1 = .ok (p, s) →
      p.reserveA = pool.reserveA + added0 ∧ p.reserveB = pool.reserveB + added1) ∧
    (∀ pool tokenIn tokenOut minAmountOut p out,
      swap pool tokenIn tokenOut 100 minAmountOut 99 = .ok (p, out) →
      out = swapAmountOut pool tokenIn 99 ∧
      swapReserveIn p tokenIn = swapReserveIn pool tokenIn + 99) :=
  feeOnTransfer_accounting feeTok 1 3 rfl (by decide) (by decide) (by decide)
    (by decide) (by decide) (by decide)

/-! The route aggregator (`relayer/src/route-aggregator.ts`). -/

/-- One configured ledger connection: its chain id and the outcome of its
`getSwapQuote` call for the fixed (inputToken, outputToken, amount) triple
of a `findBestRoute` invocation — `none` models a call that throws (for
example when no pool exists), which the aggregator silently ignores. -/
structure Conn where
  chainId : Nat
  quote : Option Nat
deriving DecidableEq, Repr

/-- One entry pushed onto `results` in `findBestRoute`: the chain, the
quote's integer output amount (a `BigInt` in the source, compared exactly),
and the route. -/
structure RouteEntry where
  chain : Nat
  output : Nat
  route : List Nat
deriving DecidableEq, Repr

/-- `MultiChainDEX.getAdapter`: the first configured connection with the
given chain id (throws — here `none` — when the chain is not connected). -/
def getAdapter (conns : List Conn) (cid : Nat) : Option Conn :=
  conns.find? (fun c => c.chainId == cid)

/-- The `results` list built by `findBestRoute` (route-aggregator.ts lines
22–43): first the same-chain option, then every other configured connection
in configuration order, silently skipping any whose quote call throws. -/
def routeResults (inputChain : Nat) (conns : List Conn) : List RouteEntry :=
  (match getAdapter conns inputChain with
   | some c =>
     match c.quote with
     | some q => [{ chain := inputChain, output := q, route := [inputChain] }]
     | none => []
   | none => []) ++
  conns.filterMap (fun c =>
    if c.chainId = inputChain then none
    else
      match getAdapter conns c.chainId with
      | some c2 => c2.quote.map (fun q =>
          { chain := c.chainId, output := q, route := [inputChain, c.chainId] })
      | none => none)

/-- Stable insertion into a descending-sorted list: an element goes before
the first existing element whose output it matches or exceeds, so
earlier-seen entries stay ahead of later equal-output ones. -/
def insertDesc (x : RouteEntry) : List RouteEntry → List RouteEntry
  | [] => [x]
  | y :: ys => if y.output ≤ x.output then x :: y :: ys else y :: insertDesc x ys

/-- The stable descending sort by output amount.  ECMAScript
`Array.prototype.sort` is required to be stable, and a stable sort under
the comparator of route-aggregator.ts lines 46–52 (larger `outputAmount`
first, `0` on ties) is extensionally unique, so this insertion sort
computes the same list. -/
def sortDesc : List RouteEntry → List RouteEntry
  | [] => []
  | x :: xs => insertDesc x (sortDesc xs)

/-- `findBestRoute` (route-aggregator.ts lines 14–55): sort the collected
results by descending output and return the first, or `null` (`none`) when
there are none. -/
def findBestRoute (inputChain : Nat) (conns : List Conn) : Option RouteEntry :=
  (sortDesc (routeResults inputChain conns)).head?

/-- The first entry of a list attaining the maximal output amount. -/
def firstMax : List RouteEntry → Option RouteEntry
  | [] => none
  | x :: xs =>
    match firstMax xs with
    | none => some x
    | some m => if m.output ≤ x.output then some x else some m

lemma insertDesc_head (x : RouteEntry) (l : List RouteEntry) :
    (insertDesc x l).head? =
      match l.head? with
      | none => some x
      | some y => if y.output ≤ x.output then some x else some y := by
  cases l with
  | nil => rfl
  | cons y ys =>
    simp only [insertDesc, List.head?_cons]
    split_ifs <;> rfl

/-- The head of the stable descending sort is the first maximum. -/
lemma sortDesc_head (l : List RouteEntry) : (sortDesc l).head? = firstMax l := by
  induction l with
  | nil => rfl
  | cons x xs ih =>
    rw [sortDesc, insertDesc_head, ih, firstMax]

lemma firstMax_eq_none (l : List RouteEntry) : firstMax l = none ↔ l = [] := by
  induction l with
  | nil => simp [firstMax]
  | cons x xs ih =>
    simp only [firstMax]
    cases h : firstMax xs
    · simp
    · dsimp only
      split_ifs <;> simp

/-- Every element's output is bounded by the first maximum's output. -/
lemma firstMax_le (l : List RouteEntry) (m : RouteEntry) (h : firstMax l = some m) :
    ∀ f ∈ l, f.output ≤ m.output := by
  induction l generalizing m with
  | nil => simp [firstMax] at h
  | cons x xs ih =>
    simp only [firstMax] at h
    cases h2 : firstMax xs
    · rw [h2] at h
      simp only [Option.some.injEq] at h
      have hnil : xs = [] := (firstMax_eq_none xs).mp h2
      subst hnil
      simp [← h]
    · next m' =>
      rw [h2] at h
      dsimp only at h
      split_ifs at h with hcmp
      · simp only [Option.some.injEq] at h
        subst m
        intro f hf
        rcases List.mem_cons.mp hf with rfl | hf
        · exact le_refl _
        · exact le_trans (ih m' h2 f hf) hcmp
      · simp only [Option.some.injEq] at h
        subst m
        intro f hf
        rcases List.mem_cons.mp hf with rfl | hf
        · omega
        · exact ih m' h2 f hf

/-- The first maximum is an element, and everything strictly before it in
the list has a strictly smaller output (so ties keep the first-seen
entry). -/
lemma firstMax_decomp (l : List RouteEntry) (e : RouteEntry) (h : firstMax l = some e) :
    ∃ l1 l2, l = l1 ++ e :: l2 ∧ ∀ f ∈ l1, f.output < e.output := by
  induction l generalizing e with
  | nil => simp [firstMax] at h
  | cons x xs ih =>
    simp only [firstMax] at h
    cases h2 : firstMax xs
    · rw [h2] at h
      simp only [Option.some.injEq] at h
      exact ⟨[], xs, by simp [h], by simp⟩
    · next m =>
      rw [h2] at h
      dsimp only at h
      split_ifs at h with hcmp
      · simp only [Option.some.injEq] at h
        exact ⟨[], xs, by simp [h], by simp⟩
      · simp only [Option.some.injEq] at h
        subst e
        obtain ⟨l1, l2, hdec, hlt⟩ := ih m h2
        refine ⟨x :: l1, l2, by simp [hdec], ?_⟩
        intro f hf
        rcases List.mem_cons.mp hf with rfl | hf
        · omega
        · exact hlt f hf

/-- When every configured connection's quote call throws, no result is
collected. -/
lemma routeResults_all_fail (inputChain : Nat) (conns : List Conn)
    (h : ∀ c ∈ conns, c.quote = none) : routeResults inputChain conns = [] := by
  have hG : ∀ cid c, getAdapter conns cid = some c → c.quote = none := by
    intro cid c hc
    exact h c (List.mem_of_find?_eq_some hc)
  unfold routeResults
  rw [List.append_eq_nil]
  constructor
  · cases hA : getAdapter conns inputChain with
    | none => rfl
    | some c => simp [hG inputChain c hA]
  · rw [List.filterMap_eq_nil]
    intro c hc
    split_ifs with hEq
    · rfl
    · cases hA : getAdapter conns c.chainId with
      | none => rfl
      | some c2 => simp [hG c.chainId c2 hA]

/-! Claim C7 -/

/-- C7: `findBestRoute` returns `null` exactly when no connection produced
a quote (in particular when every connection's quote call throws), and
otherwise returns a collected entry whose integer output amount is maximal,
the first-seen one among ties (everything queried before it has a strictly
smaller output); on connections quoting 100, 250 and 90 for the same input
it returns the 250 entry. -/
theorem findBestRoute_spec (inputChain : Nat) (conns : List Conn) :
    (findBestRoute inputChain conns = none ↔ routeResults inputChain conns = []) ∧
    ((∀ c ∈ conns, c.quote = none) → findBestRoute inputChain conns = none) ∧
    (∀ e, findBestRoute inputChain conns = some e →
      e ∈ routeResults inputChain conns ∧
      (∀ f ∈ routeResults inputChain conns, f.output ≤ e.output) ∧
      (∃ l1 l2, routeResults inputChain conns = l1 ++ e :: l2 ∧
        ∀ f ∈ l1, f.output < e.output)) ∧
    findBestRoute 1 [{ chainId := 1, quote := some 100 },
                     { chainId := 2, quote := some 250 },
                     { chainId := 3, quote := some 90 }] =
      some { chain := 2, output := 250, route := [1, 2] } := by
  have hhead : findBestRoute inputChain conns = firstMax (routeResults inputChain conns) :=
    sortDesc_head (routeResults inputChain conns)
  refine ⟨?_, ?_, ?_, by decide⟩
  · rw [hhead]
    exact firstMax_eq_none _
  · intro h
    rw [hhead, firstMax_eq_none]
    exact routeResults_all_fail inputChain conns h
  · intro e h
    rw [hhead] at h
    obtain ⟨l1, l2, hdec, hlt⟩ := firstMax_decomp _ e h
    exact ⟨by rw [hdec]; simp, firstMax_le _ e h, l1, l2, hdec, hlt⟩

/-- C7 witness: the specification applied to the worked three-connection
example. -/
theorem findBestRoute_spec_witness :
    { chain := 2, output := 250, route := [1, 2] } ∈
      routeResults 1 [{ chainId := 1, quote := some 100 },
                      { chainId := 2, quote := some 250 },
                      { chainId := 3, quote := some 90 }] ∧
    (∀ f ∈ routeResults 1 [{ chainId := 1, quote := some 100 },
                           { chainId := 2, quote := some 250 },
                           { chainId := 3, quote := some 90 }],
      f.output ≤ RouteEntry.output { chain := 2, output := 250, route := [1, 2] }) := by
  have h := (findBestRoute_spec 1 [{ chainId := 1, quote := some 100 },
    { chainId := 2, quote := some 250 }, { chainId := 3, quote := some 90 }]).2.2.1
    { chain := 2, output := 250, route := [1, 2] } (by decide)
  exact ⟨h.1, h.2.1⟩

/-! The relayer API middleware (`relayer/src/index.ts`). -/

/-- Per-client entry of the in-memory rate limiter (index.ts line 33):
request count in the current window and the window's expiry timestamp in
milliseconds. -/
structure RateEntry where
  count : Nat
  resetTs : Nat
deriving DecidableEq, Repr

/-- The default request ceiling `RELAYER_RATE_LIMIT` (index.ts line 32):
60 requests per minute per client. -/
def defaultRateLimit : Nat := 60

/-- One execution of the rate-limiter middleware (index.ts lines 34–52) for
one client, flattened over the three cases of its entry handling: fetch or
create the entry (`rateMap.get(ip) || {count: 0, resetTs: now + 60_000}`),
reset it when `now > entry.resetTs`, increment the count, store the entry,
and accept unless the new count exceeds the ceiling. -/
def rateStep (limit : Nat) (st : Option RateEntry) (now : Nat) : Bool × RateEntry :=
  match st with
  | none => (decide (1 ≤ limit), { count := 1, resetTs := now + 60000 })
  | some e =>
    if e.resetTs < now then (decide (1 ≤ limit), { count := 1, resetTs := now + 60000 })
    else (decide (e.count + 1 ≤ limit), { count := e.count + 1, resetTs := e.resetTs })

inductive Method where
  | get
  | post
deriving DecidableEq, Repr

/-- One inbound request from a single client: arrival time in milliseconds,
HTTP method, and the credential header (`x-api-key` / `authorization`)
value, if any. -/
structure Request where
  time : Nat
  method : Method
  key : Option Nat
deriving DecidableEq, Repr

inductive ApiResult where
  | accepted
  | unauthorized
  | rateLimited
deriving DecidableEq, Repr

/-- The API-key middleware (index.ts lines 20–29) followed by the rate
limiter: when a key is configured, a POST without the matching credential
is rejected with 401 before reaching the rate limiter; otherwise the rate
limiter decides (a rate-limited request still updates the stored entry). -/
def handleRequest (apiKey : Option Nat) (limit : Nat) (st : Option RateEntry)
    (r : Request) : ApiResult × Option RateEntry :=
  match apiKey with
  | some k =>
    if r.method = .post ∧ r.key ≠ some k then (.unauthorized, st)
    else
      let (acc, e) := rateStep limit st r.time
      (if acc then .accepted else .rateLimited, some e)
  | none =>
    let (acc, e) := rateStep limit st r.time
    (if acc then .accepted else .rateLimited, some e)

/-- Process a chronological request trace of one client, recording each
accepted request as the pair (window id at acceptance — the stored entry's
`resetTs` —, arrival time). -/
def acceptedLog (apiKey : Option Nat) (limit : Nat) :
    Option RateEntry → List Request → List (Nat × Nat)
  | _, [] => []
  | st, r :: rs =>
    match handleRequest apiKey limit st r with
    | (res, st') =>
      (if res = .accepted then
        [((st'.getD { count := 0, resetTs := 0 }).resetTs, r.time)]
       else []) ++ acceptedLog apiKey limit st' rs

/-- The accepted-request times of a trace processed from the empty
limiter state. -/
def acceptedTimes (apiKey : Option Nat) (limit : Nat) (reqs : List Request) : List Nat :=
  (acceptedLog apiKey limit none reqs).map Prod.snd

/-- How many of the given times fall inside the sliding one-minute window
starting at `t`. -/
def countWindow (ts : List Nat) (t : Nat) : Nat :=
  (ts.filter (fun x => decide (t ≤ x ∧ x < t + 60000))).length

/-- Remaining acceptance budget of window `w` in a given limiter state:
`limit - count` for the current window, none for stale window ids, the
full `limit` for windows not opened yet. -/
def windowBudget (limit : Nat) (st : Option RateEntry) (w : Nat) : Nat :=
  match st with
  | none => limit
  | some e =>
    if e.resetTs = w then limit - e.count
    else if w < e.resetTs then 0 else limit

lemma rateStep_budget_le (limit : Nat) (st : Option RateEntry) (now w : Nat) :
    windowBudget limit (some (rateStep limit st now).2) w ≤ windowBudget limit st w := by
  rcases st with _ | e
  · simp only [rateStep, windowBudget]
    split_ifs <;> omega
  · by_cases h : e.resetTs < now
    · simp only [rateStep, if_pos h, windowBudget]
      split_ifs <;> omega
    · simp only [rateStep, if_neg h, windowBudget]
      split_ifs <;> omega

lemma rateStep_accept_budget (limit : Nat) (st : Option RateEntry) (now : Nat)
    (hacc : (rateStep limit st now).1 = true) :
    1 + windowBudget limit (some (rateStep limit st now).2)
          ((rateStep limit st now).2.resetTs) ≤
      windowBudget limit st ((rateStep limit st now).2.resetTs) := by
  rcases st with _ | e
  · simp only [rateStep, windowBudget, decide_eq_true_eq] at hacc ⊢
    split_ifs <;> omega
  · by_cases h : e.resetTs < now
    · simp only [rateStep, if_pos h, windowBudget, decide_eq_true_eq] at hacc ⊢
      split_ifs <;> omega
    · simp only [rateStep, if_neg h, windowBudget, decide_eq_true_eq] at hacc ⊢
      split_ifs <;> omega

lemma acceptedLog_rate_bound (apiKey : Option Nat) (limit : Nat) (rs : List Request)
    (st : Option RateEntry) (r : Request) (w : Nat)
    (hH : handleRequest apiKey limit st r =
      ((if (rateStep limit st r.time).1 then ApiResult.accepted else .rateLimited),
        some (rateStep limit st r.time).2))
    (ih : ∀ (st : Option RateEntry) (w : Nat),
      ((acceptedLog apiKey limit st rs).filter (fun p => decide (p.1 = w))).length ≤
        windowBudget limit st w) :
    ((acceptedLog apiKey limit st (r :: rs)).filter (fun p => decide (p.1 = w))).length ≤
      windowBudget limit st w := by
  have htail := ih (some (rateStep limit st r.time).2) w
  simp only [acceptedLog, hH]
  rcases hacc : (rateStep limit st r.time).1 with _ | _
  · -- rejected: nothing appended for this request
    have hb := rateStep_budget_le limit st r.time w
    simp only [hacc] at htail ⊢
    simp at htail ⊢
    omega
  · -- accepted: one entry tagged with the current window id
    by_cases hw : (rateStep limit st r.time).2.resetTs = w
    · have hstep := rateStep_accept_budget limit st r.time hacc
      rw [hw] at hstep
      simp only [hacc, hw] at htail ⊢
      simp [hw] at htail ⊢
      omega
    · have hb := rateStep_budget_le limit st r.time w
      simp only [hacc, hw] at htail ⊢
      simp [hw] at htail ⊢
      omega

/-- Along any request trace, the number of requests accepted within one
limiter window never exceeds its budget. -/
lemma acceptedLog_window_bound (apiKey : Option Nat) (limit : Nat) (reqs : List Request) :
    ∀ (st : Option RateEntry) (w : Nat),
      ((acceptedLog apiKey limit st reqs).filter (fun p => decide (p.1 = w))).length ≤
        windowBudget limit st w := by
  induction reqs with
  | nil => intro st w; simp [acceptedLog]
  | cons r rs ih =>
    intro st w
    rcases apiKey with _ | k
    · refine acceptedLog_rate_bound none limit rs st r w ?_ ih
      simp only [handleRequest]
    · by_cases hauth : r.method = .post ∧ r.key ≠ some k
      · have hH : handleRequest (some k) limit st r = (.unauthorized, st) := by
          simp [handleRequest, hauth]
        simp only [acceptedLog, hH]
        simpa using ih st w
      · refine acceptedLog_rate_bound (some k) limit rs st r w ?_ ih
        simp only [handleRequest, if_neg hauth]

/-! Claim C9 -/

/-- C9 counterexample: the limiter uses a fixed window anchored at the
first counted request, not a sliding one.  With ceiling 2, GET requests at
times 0, 59000, 59001, 60001 and 60002 ms are accepted at 0, 59000
(filling the window expiring at 60000), rejected at 59001, then accepted
again at 60001 and 60002 after the window reset — so the sliding one-minute
window starting at 59000 contains three accepted requests, exceeding the
ceiling. -/
theorem rateLimiter_not_sliding_window :
    ¬ (∀ t, countWindow (acceptedTimes none 2
        [{ time := 0, method := .get, key := none },
         { time := 59000, method := .get, key := none },
         { time := 59001, method := .get, key := none },
         { time := 60001, method := .get, key := none },
         { time := 60002, method := .get, key := none }]) t ≤ 2) :=
  fun h => absurd (h 59000) (by decide)

/-- C9 (amended): the limiter is a fixed-window counter per client: within
any single limiter window (anchored at the first counted request after the
previous window expired) at most the configured ceiling of requests is
accepted, every further request in that window is rejected with the
rate-limit error, the default ceiling is 60 per minute, and POST requests
lacking the configured credential are rejected as unauthorized with the
limiter state unchanged. -/
theorem rateLimiter_fixed_window (apiKey : Option Nat) (limit : Nat)
    (reqs : List Request) (w : Nat) :
    ((acceptedLog apiKey limit none reqs).filter (fun p => decide (p.1 = w))).length ≤
      limit ∧
    (∀ st (r : Request), (rateStep limit st r.time).1 = false →
      handleRequest none limit st r = (.rateLimited, some (rateStep limit st r.time).2)) ∧
    (∀ k st (r : Request), r.method = .post → r.key ≠ some k →
      handleRequest (some k) limit st r = (.unauthorized, st)) ∧
    defaultRateLimit = 60 := by
  refine ⟨?_, ?_, ?_, rfl⟩
  · simpa [windowBudget] using acceptedLog_window_bound apiKey limit reqs none w
  · intro st r hrej
    simp only [handleRequest]
    rcases hR : rateStep limit st r.time with ⟨acc, e⟩
    rw [hR] at hrej
    simp_all
  · intro k st r h1 h2
    simp [handleRequest, h1, h2]

/-- C9 witness: the fixed-window bound on the counterexample trace's first
window (id 60000, two accepted requests) and a concrete unauthorized
POST. -/
theorem rateLimiter_fixed_window_witness :
    ((acceptedLog none 2 none
        [{ time := 0, method := .get, key := none },
         { time := 59000, method := .get, key := none },
         { time := 59001, method := .get, key := none },
         { time := 60001, method := .get, key := none },
         { time := 60002, method := .get, key := none }]).filter
      (fun p => decide (p.1 = 60000))).length ≤ 2 ∧
    handleRequest (some 9) 2 none { time := 5, method := .post, key := none } =
      (.unauthorized, none) := by
  have h := rateLimiter_fixed_window none 2
    [{ time := 0, method := .get, key := none },
     { time := 59000, method := .get, key := none },
     { time := 59001, method := .get, key := none },
     { time := 60001, method := .get, key := none },
     { time := 60002, method := .get, key := none }] 60000
  exact ⟨h.1, h.2.2.1 9 none { time := 5, method := .post, key := none } rfl (by decide)⟩

/-! The relayer worker's persisted mapping store (part_005 `loadMappings` /
`saveMappings`; the entry type `MappingEntry` is declared in
`relayer/src/index.ts` line 68). -/

/-- One persisted mapping value (index.ts line 68): the counterpart Solana
swap account (`atomicSwapPda`), its escrow vault account, the token mint
and the participant. -/
structure MappingEntry where
  atomicSwapPda : String
  escrowVaultPda : String
  tokenMint : String
  participant : String
deriving DecidableEq, Repr

/-- The in-memory mapping store: an association list from originating swap
id to entry (JavaScript objects preserve string-key insertion order). -/
abbrev Mappings := List (String × MappingEntry)

/-- The fragment of JSON the persisted format uses. -/
inductive Json where
  | str : String → Json
  | obj : List (String × Json) → Json

/-- The JSON value `JSON.stringify` serializes for one mapping entry: an
object with exactly the four field names of `MappingEntry`. -/
def jsonOfEntry (e : MappingEntry) : Json :=
  .obj [("atomicSwapPda", .str e.atomicSwapPda),
        ("escrowVaultPda", .str e.escrowVaultPda),
        ("tokenMint", .str e.tokenMint),
        ("participant", .str e.participant)]

/-- The JSON value serialized for the whole store: an object keyed by swap
id. -/
def jsonOfMappings (m : Mappings) : Json :=
  .obj (m.map (fun p => (p.1, jsonOfEntry p.2)))

/-- Reading one entry back from its JSON value. -/
def entryOfJson : Json → Option MappingEntry
  | .obj [("atomicSwapPda", .str a), ("escrowVaultPda", .str b),
          ("tokenMint", .str c), ("participant", .str d)] =>
    some { atomicSwapPda := a, escrowVaultPda := b, tokenMint := c, participant := d }
  | _ => none

/-- Reading the store's entries back from the JSON object body. -/
def entriesOfJson : List (String × Json) → Option Mappings
  | [] => some []
  | (k, v) :: rest =>
    match entryOfJson v, entriesOfJson rest with
    | some e, some m => some ((k, e) :: m)
    | _, _ => none

/-- Reading the whole store back from its JSON value. -/
def mappingsOfJson : Json → Option Mappings
  | .obj l => entriesOfJson l
  | _ => none

/-- The key names of a JSON object. -/
def jsonKeys : Json → List String
  | .obj l => l.map Prod.fst
  | .str _ => []

lemma entryOfJson_jsonOfEntry (e : MappingEntry) :
    entryOfJson (jsonOfEntry e) = some e := rfl

lemma mappingsOfJson_jsonOfMappings (m : Mappings) :
    mappingsOfJson (jsonOfMappings m) = some m := by
  induction m with
  | nil => rfl
  | cons p rest ih =>
    simp only [jsonOfMappings, mappingsOfJson] at ih ⊢
    simp only [List.map_cons, entriesOfJson, entryOfJson_jsonOfEntry, ih]

/-- Split a character list at every occurrence of the separator, as
JavaScript `String.prototype.split` does with a one-character separator. -/
def splitOnChar (c : Char) : List Char → List (List Char)
  | [] => [[]]
  | x :: xs =>
    if x = c then [] :: splitOnChar c xs
    else
      match splitOnChar c xs with
      | [] => [[x]]
      | y :: ys => (x :: y) :: ys

lemma splitOnChar_not_mem (c : Char) (l : List Char) (h : c ∉ l) :
    splitOnChar c l = [l] := by
  induction l with
  | nil => rfl
  | cons x xs ih =>
    simp only [List.mem_cons, not_or] at h
    have hxc : ¬ x = c := fun hx => h.1 hx.symm
    simp only [splitOnChar, if_neg hxc, ih h.2]

lemma splitOnChar_append (c : Char) (l1 l2 : List Char) (h1 : c ∉ l1) :
    splitOnChar c (l1 ++ c :: l2) = l1 :: splitOnChar c l2 := by
  induction l1 with
  | nil => simp [splitOnChar]
  | cons x xs ih =>
    simp only [List.mem_cons, not_or] at h1
    have hxc : ¬ x = c := fun hx => h1.1 hx.symm
    simp only [List.cons_append, splitOnChar, if_neg hxc, List.append_eq, ih h1.2]

/-- `saveMappings` (part_005 lines 43–66): serialize the store with
`JSON.stringify(m, null, 2)` and, when an encryption key is configured,
write `base64(iv) ++ ":" ++ base64(aes256cbc(sha256(key), iv, payload))`
instead of the plaintext payload.  `render` models `JSON.stringify` down to
characters; `sha256`, `encrypt` and `b64encode` model Node's `crypto` and
`Buffer` primitives (bytes as `List Nat`); the random `iv` is a
parameter. -/
def saveMappings (render : Json → List Char)
    (sha256 : List Char → List Nat)
    (encrypt : List Nat → List Nat → List Char → List Nat)
    (b64encode : List Nat → List Char)
    (key : Option (List Char)) (iv : List Nat) (m : Mappings) : List Char :=
  let payload := render (jsonOfMappings m)
  match key with
  | none => payload
  | some k => b64encode iv ++ ':' :: b64encode (encrypt (sha256 k) iv payload)

/-- `loadMappings` (part_005 lines 13–41): read the file and, when a key is
configured and the content splits on `:` into exactly two parts,
base64-decode and decrypt them before parsing; `parse` models `JSON.parse`
(composed here with the shape check into mapping entries). -/
def loadMappings (parse : List Char → Option Json)
    (sha256 : List Char → List Nat)
    (decrypt : List Nat → List Nat → List Nat → List Char)
    (b64decode : List Char → List Nat)
    (key : Option (List Char)) (raw : List Char) : Option Mappings :=
  match key with
  | none => (parse raw).bind mappingsOfJson
  | some k =>
    match splitOnChar ':' raw with
    | [p0, p1] =>
      ((parse (decrypt (sha256 k) (b64decode p0) (b64decode p1))).bind mappingsOfJson)
    | _ => (parse raw).bind mappingsOfJson

/-- A concrete persisted entry for exercising the store. -/
def sampleEntry : MappingEntry :=
  { atomicSwapPda := "PdaA", escrowVaultPda := "PdaE",
    tokenMint := "Mint", participant := "P" }

/-- A concrete one-entry store. -/
def sampleStore : Mappings := [("swap1", sampleEntry)]

/-! Claim C8 -/

/-- C8 counterexample: the persisted JSON values are keyed
`atomicSwapPda`, `escrowVaultPda`, `tokenMint`, `participant` — there are
no fields named `counterpartSwapId` or `tokenId` as the claim states. -/
theorem mappingEntry_fields_counterexample :
    jsonKeys (jsonOfEntry sampleEntry) =
      ["atomicSwapPda", "escrowVaultPda", "tokenMint", "participant"] ∧
    "counterpartSwapId" ∉ jsonKeys (jsonOfEntry sampleEntry) ∧
    "tokenId" ∉ jsonKeys (jsonOfEntry sampleEntry) := by
  refine ⟨rfl, by decide, by decide⟩

/-- C8 (amended): whenever the external primitives behave as inverses on
the values involved (`JSON.parse ∘ JSON.stringify`, AES decrypt ∘ encrypt
under the same key-derived hash and iv, base64 decode ∘ encode, and base64
output containing no `:`), saving the store with a configured key and
loading it back with the same key yields exactly the original mappings;
with no key configured the same round-trip holds on the plaintext payload;
the encrypted file content splits on `:` into exactly the two base64 parts
`iv` and `ciphertext`; and the persisted JSON object is keyed by swap id
with each value an object with fields `{atomicSwapPda, escrowVaultPda,
tokenMint, participant}` (not `{counterpartSwapId, tokenId,
participant}`). -/
theorem mappingStore_roundtrip
    (render : Json → List Char) (parse : List Char → Option Json)
    (sha256 : List Char → List Nat)
    (encrypt : List Nat → List Nat → List Char → List Nat)
    (decrypt : List Nat → List Nat → List Nat → List Char)
    (b64encode : List Nat → List Char) (b64decode : List Char → List Nat)
    (k : List Char) (iv : List Nat) (m : Mappings)
    (hparse : parse (render (jsonOfMappings m)) = some (jsonOfMappings m))
    (hdec : decrypt (sha256 k) iv
        (encrypt (sha256 k) iv (render (jsonOfMappings m))) =
      render (jsonOfMappings m))
    (hb64iv : b64decode (b64encode iv) = iv)
    (hb64ct : b64decode (b64encode
        (encrypt (sha256 k) iv (render (jsonOfMappings m)))) =
      encrypt (sha256 k) iv (render (jsonOfMappings m)))
    (hcoliv : ':' ∉ b64encode iv)
    (hcolct : ':' ∉ b64encode (encrypt (sha256 k) iv (render (jsonOfMappings m)))) :
    loadMappings parse sha256 decrypt b64decode (some k)
        (saveMappings render sha256 encrypt b64encode (some k) iv m) = some m ∧
    loadMappings parse sha256 decrypt b64decode none
        (saveMappings render sha256 encrypt b64encode none iv m) = some m ∧
    splitOnChar ':' (saveMappings render sha256 encrypt b64encode (some k) iv m) =
      [b64encode iv,
       b64encode (encrypt (sha256 k) iv (render (jsonOfMappings m)))] ∧
    jsonKeys (jsonOfMappings m) = m.map Prod.fst ∧
    (∀ p ∈ m, jsonKeys (jsonOfEntry p.2) =
      ["atomicSwapPda", "escrowVaultPda", "tokenMint", "participant"]) := by
  have hsplit : splitOnChar ':'
      (saveMappings render sha256 encrypt b64encode (some k) iv m) =
      [b64encode iv,
       b64encode (encrypt (sha256 k) iv (render (jsonOfMappings m)))] := by
    simp only [saveMappings]
    rw [splitOnChar_append ':' _ _ hcoliv, splitOnChar_not_mem ':' _ hcolct]
  refine ⟨?_, ?_, hsplit, ?_, ?_⟩
  · simp only [loadMappings]
    rw [hsplit]
    dsimp only
    rw [hb64iv, hb64ct, hdec, hparse]
    simp only [Option.some_bind]
    exact mappingsOfJson_jsonOfMappings m
  · simp only [loadMappings, saveMappings]
    rw [hparse]
    simp only [Option.some_bind]
    exact mappingsOfJson_jsonOfMappings m
  · simp only [jsonOfMappings, jsonKeys, List.map_map]
    rfl
  · intro p hp
    rfl

/-- C8 witness: the round-trip evaluated on the one-entry store with
concrete (instance-correct) stand-ins for the external serialization,
cipher and base64 primitives. -/
theorem mappingStore_roundtrip_witness :
    loadMappings (fun _ => some (jsonOfMappings sampleStore))
        (fun _ => []) (fun _ _ _ => ['x'])
        (fun s => if s = ['a'] then [1] else [2]) (some ['k'])
        (saveMappings (fun _ => ['x']) (fun _ => []) (fun _ _ _ => [2])
          (fun b => if b = [1] then ['a'] else ['b']) (some ['k']) [1]
          sampleStore) =
      some sampleStore ∧
    splitOnChar ':'
        (saveMappings (fun _ => ['x']) (fun _ => []) (fun _ _ _ => [2])
          (fun b => if b = [1] then ['a'] else ['b']) (some ['k']) [1]
          sampleStore) =
      [['a'], ['b']] := by
  have h := mappingStore_roundtrip (fun _ => ['x'])
    (fun _ => some (jsonOfMappings sampleStore))
    (fun _ => []) (fun _ _ _ => [2]) (fun _ _ _ => ['x'])
    (fun b => if b = [1] then ['a'] else ['b'])
    (fun s => if s = ['a'] then [1] else [2]) (['k']) ([1]) sampleStore
    rfl rfl (by decide) (by decide) (by decide) (by decide)
  exact ⟨h.1, h.2.2.1⟩

end FizzSwap
